import Mathlib

/-!
Verification development for the `kotlin-multiplatform-coverage` analyzer.

The Rust sources are embedded shallowly:

* strings are handled as `String` / `List Char` (the analyzer only deals with
  ASCII source text; Unicode classes of the `regex` crate are modelled by the
  corresponding ASCII character predicates);
* `HashMap` / `HashSet` state is modelled by association lists / `Finset`,
  with insertion-order iteration standing in for the unspecified hash-map
  iteration order (the spec itself notes the order is arbitrary);
* file-system access (`fs::read_to_string`) is modelled by a function
  `fs : String → Option String` mapping a path to its content, `none`
  standing for an I/O error; `anyhow::Result` becomes `Except String`;
* the concrete regular expressions of the source are implemented as
  executable matching functions over `List Char`, following the regex text
  (multiline `^`-anchored patterns are matched line by line; the source
  splits content with `str::lines`, reproduced by `rustLines`).
-/

/-! ### String helpers (models of `str` operations used by the source) -/

/-- Splits a character list at every newline character, keeping empty pieces
(the shape produced by splitting on `'\n'`). -/
def splitOnNewline : List Char → List (List Char)
  | [] => [[]]
  | c :: rest =>
    if c = '\n' then [] :: splitOnNewline rest
    else
      match splitOnNewline rest with
      | [] => [[c]]
      | l :: ls => (c :: l) :: ls

/-- Drops a single trailing carriage return, as `str::lines` does. -/
def stripCR (cs : List Char) : List Char :=
  if cs.getLast? = some '\r' then cs.dropLast else cs

/-- Model of Rust `str::lines`: split on `'\n'`, drop a final empty segment
produced by a trailing newline, and strip a trailing `'\r'` from each line. -/
def rustLines (s : String) : List String :=
  let parts := splitOnNewline s.toList
  let parts := if parts.getLast? = some [] then parts.dropLast else parts
  parts.map (fun cs => String.mk (stripCR cs))

/-- Model of Rust `str::trim` (ASCII whitespace). -/
def strTrim (s : String) : String :=
  String.mk (((s.toList.dropWhile Char.isWhitespace).reverse.dropWhile
    Char.isWhitespace).reverse)

/-- Model of Rust `str::starts_with`. -/
def strStartsWith (s pre : String) : Bool :=
  pre.toList.isPrefixOf s.toList

/-- Model of Rust `str::ends_with`. -/
def strEndsWith (s suf : String) : Bool :=
  suf.toList.reverse.isPrefixOf s.toList.reverse

/-- Model of Rust `str::contains` for a literal pattern. -/
def strContainsSub (s pat : String) : Bool :=
  (List.range (s.toList.length + 1)).any
    (fun i => pat.toList.isPrefixOf (s.toList.drop i))

/-! ### The usage-detection pattern

`detect_usage_with_patterns` (src/adapters/platforms/mod.rs) builds, for each
symbol name, the regex `\b<escaped name>\b(?:\s*\(|\.|\s*:|<|\s+)` and calls
`is_match` on the line.  `regex::escape` makes the name a literal, so the
pattern is modelled by an executable matcher over the line's characters. -/

/-- Regex word character `\w` (ASCII `[A-Za-z0-9_]`). -/
def isWordChar (c : Char) : Bool := c.isAlphanum || c = '_'

/-- Whether the character at index `i` exists and is a word character. -/
def isWordAt (cs : List Char) (i : Nat) : Bool :=
  match cs.get? i with
  | some c => isWordChar c
  | none => false

/-- Regex word boundary `\b` at position `i` (between index `i - 1` and `i`). -/
def wordBoundary (cs : List Char) (i : Nat) : Bool :=
  match i with
  | 0 => isWordAt cs 0
  | j + 1 => isWordAt cs j != isWordAt cs (j + 1)

/-- The suffix group `(?:\s*\(|\.|\s*:|<|\s+)` of the usage pattern, matched
against the characters following the symbol name. -/
def usageSuffix (cs : List Char) : Bool :=
  let rest := cs.dropWhile Char.isWhitespace
  decide (rest.head? = some '(') || decide (cs.head? = some '.') ||
    decide (rest.head? = some ':') || decide (cs.head? = some '<') ||
    decide (cs.takeWhile Char.isWhitespace ≠ [])

/-- Whether the usage pattern for `sym` matches starting at index `i`. -/
def usageMatchAt (sym line : List Char) (i : Nat) : Bool :=
  sym.isPrefixOf (line.drop i) && wordBoundary line i &&
    wordBoundary line (i + sym.length) && usageSuffix (line.drop (i + sym.length))

/-- Model of `Regex::new(\b{sym}\b(?:\s*\(|\.|\s*:|<|\s+)).is_match(line)`:
the pattern matches somewhere in the line. -/
def symbolPatternMatches (sym line : String) : Bool :=
  (List.range (line.toList.length + 1)).any (usageMatchAt sym.toList line.toList)

/-- Number of positions where the usage pattern for `sym` matches in `line`
(so a line "contains the symbol twice" when this is `2`). -/
def usageMatchPositions (sym line : String) : Nat :=
  ((List.range (line.toList.length + 1)).filter
    (usageMatchAt sym.toList line.toList)).length

example : symbolPatternMatches "User" "User(" = true := by decide
example : symbolPatternMatches "User" "val x: User" = false := by decide
example : symbolPatternMatches "User" "UserRepository" = false := by decide
example : usageMatchPositions "User" "User( User(" = 2 := by decide

/-! ### Analyzer models (src/analyzer/models.rs) -/

namespace analyzer

/-- Usage location information (`UsageLocation`). -/
structure UsageLocation where
  file : String
  line : Nat
  context : String
deriving DecidableEq

/-- Symbol usage statistics (`SymbolUsage`, analyzer layer). -/
structure SymbolUsage where
  symbol_name : String
  reference_count : Nat
  used_in_files : Finset String
  usage_lines : List UsageLocation
deriving DecidableEq

end analyzer

/-! ### `detect_usage_with_patterns` (src/adapters/platforms/mod.rs)

The `HashMap<String, SymbolUsage>` is modelled as an association list with
distinct keys; `entry(..).or_insert_with(..)` followed by the three mutations
becomes `updateUsage`. -/

/-- The fresh entry created by `or_insert_with` (count 0, empty set, empty vec). -/
def emptyUsage (sym : String) : analyzer.SymbolUsage :=
  ⟨sym, 0, ∅, []⟩

/-- One match: `reference_count += 1`, insert the file into `used_in_files`,
push a `UsageLocation` with line number `line_num + 1` and trimmed context. -/
def bumpUsage (file_path : String) (line_num : Nat) (ctx : String)
    (u : analyzer.SymbolUsage) : analyzer.SymbolUsage :=
  { u with
    reference_count := u.reference_count + 1
    used_in_files := insert file_path u.used_in_files
    usage_lines := u.usage_lines ++ [⟨file_path, line_num + 1, ctx⟩] }

/-- Association-list lookup for the usage map. -/
def lookupUsage : List (String × analyzer.SymbolUsage) → String →
    Option analyzer.SymbolUsage
  | [], _ => none
  | (k, u) :: rest, s => if k = s then some u else lookupUsage rest s

/-- `usages.entry(sym).or_insert_with(empty)` then bump: update in place if
present, append a new bumped entry otherwise. -/
def updateUsage : List (String × analyzer.SymbolUsage) → String → String →
    Nat → String → List (String × analyzer.SymbolUsage)
  | [], sym, file_path, line_num, ctx =>
    [(sym, bumpUsage file_path line_num ctx (emptyUsage sym))]
  | (k, u) :: rest, sym, file_path, line_num, ctx =>
    if k = sym then (k, bumpUsage file_path line_num ctx u) :: rest
    else (k, u) :: updateUsage rest sym file_path line_num ctx

/-- Processing of one `(line_num, line)` pair: skip comment-prefixed lines,
otherwise try every candidate symbol on the line.  (`Regex::new` on the
escaped name never fails, so the `if let Ok(regex)` arm is always taken.) -/
def symStep (file_path : String) (line_num : Nat) (line trimmed : String)
    (m : List (String × analyzer.SymbolUsage)) (sym : String) :
    List (String × analyzer.SymbolUsage) :=
  if symbolPatternMatches sym line then
    updateUsage m sym file_path line_num trimmed
  else m

/-- Whether the trimmed line starts with one of the comment/import prefixes
(such a line is skipped entirely). -/
def isCommentLine (comment_prefixes : List String) (line : String) : Bool :=
  comment_prefixes.any (fun pre => strStartsWith (strTrim line) pre)

def lineStep (file_path : String) (kmp_symbols : List String)
    (comment_prefixes : List String)
    (m : List (String × analyzer.SymbolUsage)) (entry : Nat × String) :
    List (String × analyzer.SymbolUsage) :=
  if isCommentLine comment_prefixes entry.2 then m
  else
    kmp_symbols.foldl
      (symStep file_path entry.1 entry.2 (strTrim entry.2)) m

/-- Model of `detect_usage_with_patterns` (src/adapters/platforms/mod.rs,
lines 132–180). -/
def detect_usage_with_patterns (content : String) (file_path : String)
    (kmp_symbols : List String) (comment_prefixes : List String) :
    List (String × analyzer.SymbolUsage) :=
  ((rustLines content).enum).foldl
    (lineStep file_path kmp_symbols comment_prefixes) []

/-- Reference count recorded for `sym` (0 when no entry exists). -/
def refCountOf (m : List (String × analyzer.SymbolUsage)) (sym : String) : Nat :=
  ((lookupUsage m sym).getD (emptyUsage sym)).reference_count

example :
    detect_usage_with_patterns "val u = User()" "App.kt" ["User"] ["//"]
      = [("User", ⟨"User", 1, {"App.kt"},
          [⟨"App.kt", 1, "val u = User()"⟩]⟩)] := by decide

example :
    refCountOf (detect_usage_with_patterns "User( User(" "App.kt" ["User"] ["//"])
      "User" = 1 := by decide

/-! ### `DependencyGraph::compute_transitive_impact`
(src/analyzer/dependency_graph.rs, lines 125–158)

`reverse_dependencies : HashMap<String, HashSet<String>>` is modelled as an
association list of adjacency lists (hash iteration order becomes list
order).  The `while let Some(file) = queue.pop_front()` loop is modelled
with an explicit fuel argument; `bfsFuel` is an upper bound on the number of
iterations, and `bfsLoopO_isSome` below proves the loop always finishes
within it (`none` stands for running out of fuel, which never happens). -/

/-- `self.reverse_dependencies.get(&file)`: adjacency lookup, empty when the
key is absent (an absent key contributes no dependents). -/
def lookupAdj : List (String × List String) → String → List String
  | [], _ => []
  | (k, v) :: rest, s => if k = s then v else lookupAdj rest s

/-- All files occurring as a dependent in some adjacency list (every file the
BFS ever pushes beyond the seed queue lies in this set). -/
def bfsNodes (rev : List (String × List String)) : Finset String :=
  ((rev.map (fun p => p.2)).flatten).toFinset

/-- Total number of reverse edges; bounds how many files one BFS step pushes. -/
def revEdgeCount (rev : List (String × List String)) : Nat :=
  ((rev.map (fun p => p.2.length))).sum

/-- Fuel bound for the BFS loop from state `(transitive, queue)`. -/
def bfsFuel (rev : List (String × List String)) (transitive : Finset String)
    (queue : List String) : Nat :=
  ((bfsNodes rev ∪ transitive ∪ queue.toFinset).card - transitive.card) *
    (revEdgeCount rev + 1) + queue.length

/-- The BFS loop: pop a file; skip it when already visited, otherwise mark it
visited and push every unvisited dependent.  `none` = fuel ran out. -/
def bfsLoopO (rev : List (String × List String)) :
    Nat → Finset String → List String → Option (Finset String)
  | _, transitive, [] => some transitive
  | 0, _, _ :: _ => none
  | fuel + 1, transitive, file :: queue =>
    if file ∈ transitive then bfsLoopO rev fuel transitive queue
    else
      let t2 := insert file transitive
      bfsLoopO rev fuel t2
        (queue ++ (lookupAdj rev file).filter (fun d => d ∉ t2))

/-- Model of `compute_transitive_impact`: seed the queue with the direct
files, run the BFS accumulating every visited file, then remove the direct
files from the accumulated set. -/
def compute_transitive_impact (rev : List (String × List String))
    (direct_impact_files : List String) : Finset String :=
  ((bfsLoopO rev (bfsFuel rev ∅ direct_impact_files) ∅ direct_impact_files).getD ∅)
    \ direct_impact_files.toFinset

example :
    compute_transitive_impact [("A", ["B"]), ("B", ["A"])] ["A"] = {"B"} := by
  decide

example :
    compute_transitive_impact [("A", ["B"]), ("B", ["C"])] ["A"]
      = {"B", "C"} := by decide

/-! #### Termination of the BFS loop within the fuel bound -/

theorem lookupAdj_length_le (rev : List (String × List String)) (k : String) :
    (lookupAdj rev k).length ≤ revEdgeCount rev := by
  induction rev with
  | nil => simp [lookupAdj, revEdgeCount]
  | cons p rest ih =>
    obtain ⟨a, v⟩ := p
    simp only [lookupAdj, revEdgeCount, List.map_cons, List.sum_cons]
    split
    · omega
    · simp only [revEdgeCount] at ih
      omega

theorem mem_lookupAdj_bfsNodes {rev : List (String × List String)} {k x : String}
    (hx : x ∈ lookupAdj rev k) : x ∈ bfsNodes rev := by
  induction rev with
  | nil => simp [lookupAdj] at hx
  | cons p rest ih =>
    obtain ⟨a, v⟩ := p
    simp only [lookupAdj] at hx
    simp only [bfsNodes, List.map_cons, List.flatten_cons, List.toFinset_append,
      Finset.mem_union, List.mem_toFinset]
    by_cases hak : a = k
    · rw [if_pos hak] at hx
      exact Or.inl hx
    · rw [if_neg hak] at hx
      have := ih hx
      simp only [bfsNodes, List.mem_toFinset] at this
      exact Or.inr this

/-- The BFS loop always finishes within the `bfsFuel` bound: each iteration
either shortens the queue or adds a new node from a finite universe to the
visited set, and `bfsFuel` strictly decreases. -/
theorem bfsLoopO_isSome (rev : List (String × List String)) :
    ∀ (fuel : Nat) (t : Finset String) (q : List String),
      bfsFuel rev t q ≤ fuel → (bfsLoopO rev fuel t q).isSome = true := by
  intro fuel
  induction fuel with
  | zero =>
    intro t q h
    cases q with
    | nil => simp [bfsLoopO]
    | cons a l =>
      exfalso
      simp only [bfsFuel, List.length_cons] at h
      omega
  | succ n ih =>
    intro t q h
    cases q with
    | nil => simp [bfsLoopO]
    | cons file rest =>
      simp only [bfsLoopO]
      split
      · -- file already visited: queue shrinks
        rename_i hf
        apply ih
        have hsub : bfsNodes rev ∪ t ∪ rest.toFinset ⊆
            bfsNodes rev ∪ t ∪ (file :: rest).toFinset := by
          intro x hx
          simp only [Finset.mem_union, List.mem_toFinset, List.mem_cons] at hx ⊢
          tauto
        have hcard := Finset.card_le_card hsub
        simp only [bfsFuel, List.length_cons] at h ⊢
        have hmul : ((bfsNodes rev ∪ t ∪ rest.toFinset).card - t.card) *
            (revEdgeCount rev + 1) ≤
            ((bfsNodes rev ∪ t ∪ (file :: rest).toFinset).card - t.card) *
            (revEdgeCount rev + 1) :=
          Nat.mul_le_mul_right _ (by omega)
        omega
      · -- new file: the visited set grows inside a finite universe
        rename_i hf
        apply ih
        set t2 := insert file t with ht2
        set deps := (lookupAdj rev file).filter (fun d => d ∉ t2) with hdeps
        set U := bfsNodes rev ∪ t ∪ (file :: rest).toFinset with hU
        set U2 := bfsNodes rev ∪ t2 ∪ (rest ++ deps).toFinset with hU2
        have hsub : U2 ⊆ U := by
          intro x hx
          simp only [hU2, hU, ht2, Finset.mem_union, List.mem_toFinset,
            Finset.mem_insert, List.mem_append, List.mem_cons] at hx ⊢
          rcases hx with (hx | hx) | hx
          · exact Or.inl (Or.inl hx)
          · rcases hx with hx | hx
            · exact Or.inr (Or.inl hx)
            · exact Or.inl (Or.inr hx)
          · rcases hx with hx | hx
            · exact Or.inr (Or.inr hx)
            · have hxd : x ∈ lookupAdj rev file ∧ x ∉ t2 := by
                simpa [hdeps] using hx
              exact Or.inl (Or.inl (mem_lookupAdj_bfsNodes hxd.1))
        have ht2U2 : t2 ⊆ U2 := by
          intro x hx
          simp only [hU2, Finset.mem_union]
          exact Or.inl (Or.inr hx)
        have hcardt2 : t2.card = t.card + 1 := Finset.card_insert_of_not_mem hf
        have hU2le : U2.card ≤ U.card := Finset.card_le_card hsub
        have ht2le : t2.card ≤ U2.card := Finset.card_le_card ht2U2
        have hdepslen : deps.length ≤ revEdgeCount rev :=
          le_trans (List.length_filter_le _ _) (lookupAdj_length_le rev file)
        simp only [bfsFuel, List.length_cons, List.length_append] at h ⊢
        rw [← hU] at h
        rw [← hU2]
        -- arithmetic: abbreviate the two products
        have hab : t.card + 1 ≤ U.card := le_trans (hcardt2 ▸ ht2le) hU2le
        have hstep : U2.card - t2.card ≤ U.card - t.card - 1 := by omega
        have hmul : (U2.card - t2.card) * (revEdgeCount rev + 1) ≤
            (U.card - t.card - 1) * (revEdgeCount rev + 1) :=
          Nat.mul_le_mul_right _ hstep
        have hsplit : (U.card - t.card - 1) * (revEdgeCount rev + 1) +
            (revEdgeCount rev + 1) = (U.card - t.card) * (revEdgeCount rev + 1) := by
          have h1 : (U.card - t.card - 1) + 1 = U.card - t.card := by omega
          calc (U.card - t.card - 1) * (revEdgeCount rev + 1) + (revEdgeCount rev + 1)
              = ((U.card - t.card - 1) + 1) * (revEdgeCount rev + 1) := by
                rw [Nat.succ_mul]
            _ = (U.card - t.card) * (revEdgeCount rev + 1) := by rw [h1]
        rw [hcardt2] at hmul ⊢
        omega

/-! ### Declaration / import extraction used by `DependencyGraph::build`
(src/analyzer/dependency_graph.rs, lines 64–122)

The multiline regexes `(?m)^package\s+…`, `(?m)^\s*(?:public\s+)?(class|
interface|object)\s+…` and `(?m)^import\s+…` are matched line by line
(`^` anchors every match at a line start, so each line yields at most one
match; `\s` running across a line break is the only behaviour this
line-local model does not reproduce). -/

/-- `kw` followed by at least one whitespace character (`kw\s+`), returning
the characters after the whitespace run. -/
def dropKeyword (kw : String) (cs : List Char) : Option (List Char) :=
  if kw.toList.isPrefixOf cs then
    match cs.drop kw.toList.length with
    | c :: rest =>
      if c.isWhitespace then some ((c :: rest).dropWhile Char.isWhitespace)
      else none
    | [] => none
  else none

/-- A character of the class `[a-zA-Z0-9_.]` used by package/import names. -/
def pkgChar (c : Char) : Bool := c.isAlphanum || c = '_' || c = '.'

/-- An identifier `firstOk …` followed by `[a-zA-Z0-9_]*`; returns the name
and the remaining characters. -/
def identFrom (firstOk : Char → Bool) (cs : List Char) :
    Option (String × List Char) :=
  match cs with
  | [] => none
  | c :: rest =>
    if firstOk c then
      let tail := rest.takeWhile (fun ch => ch.isAlphanum || ch = '_')
      some (String.mk (c :: tail), rest.drop tail.length)
    else none

/-- One line of `^\s*(?:public\s+)?<kw>\s+<ident>` with a post-condition on
what follows the identifier; returns the captured identifier. -/
def matchDeclName (kw : String) (firstOk : Char → Bool)
    (post : List Char → Bool) (line : String) : Option String :=
  let cs := line.toList.dropWhile Char.isWhitespace
  let cs :=
    match dropKeyword "public" cs with
    | some cs2 => cs2
    | none => cs
  match dropKeyword kw cs with
  | none => none
  | some cs2 =>
    match identFrom firstOk cs2 with
    | none => none
    | some (name, rest) => if post rest then some name else none

/-- One line of `^package\s+([a-zA-Z0-9_.]+)` (no leading whitespace, no
`public` prefix in this regex). -/
def packageNameOfLine (line : String) : Option String :=
  match dropKeyword "package" line.toList with
  | none => none
  | some cs =>
    let tok := cs.takeWhile pkgChar
    if tok.isEmpty then none else some (String.mk tok)

/-- One line of `^import\s+([a-zA-Z0-9_.]+)`. -/
def importOfLine (line : String) : Option String :=
  match dropKeyword "import" line.toList with
  | none => none
  | some cs =>
    let tok := cs.takeWhile pkgChar
    if tok.isEmpty then none else some (String.mk tok)

/-- `extract_package_name`: read the file, return the first `package`
declaration, or `""` when none matches; a read failure is an error. -/
def extract_package_name (fs : String → Option String) (file : String) :
    Except String String :=
  match fs file with
  | none => .error file
  | some content =>
    match ((rustLines content).filterMap packageNameOfLine).head? with
    | some p => .ok p
    | none => .ok ""

/-- One line of `^\s*(?:public\s+)?(?:class|interface|object)\s+([A-Z][a-zA-Z0-9_]*)`. -/
def primaryClassOfLine (line : String) : Option String :=
  (matchDeclName "class" Char.isUpper (fun _ => true) line).orElse (fun _ =>
    (matchDeclName "interface" Char.isUpper (fun _ => true) line).orElse (fun _ =>
      matchDeclName "object" Char.isUpper (fun _ => true) line))

/-- `extract_primary_class_name`: first class/interface/object name of the
file, `none` when the file is unreadable or nothing matches. -/
def extract_primary_class_name (fs : String → Option String) (file : String) :
    Option String :=
  match fs file with
  | none => none
  | some content => ((rustLines content).filterMap primaryClassOfLine).head?

/-- `extract_imports`: every `import` declaration of the file, in order. -/
def extract_imports (fs : String → Option String) (file : String) :
    Except String (List String) :=
  match fs file with
  | none => .error file
  | some content => .ok ((rustLines content).filterMap importOfLine)

/-! ### `DependencyGraph` state and `build`
(src/analyzer/dependency_graph.rs, lines 8–62) -/

/-- The dependency graph state: `dependencies` (forward edges),
`reverse_dependencies`, and the `package → file` index. -/
structure DependencyGraph where
  dependencies : List (String × Finset String)
  reverse_dependencies : List (String × Finset String)
  package_map : List (String × String)
deriving DecidableEq

/-- `DependencyGraph::new`. -/
def DependencyGraph.new : DependencyGraph := ⟨[], [], []⟩

/-- Association-list lookup returning the stored set (`∅` when absent). -/
def lookupFinset : List (String × Finset String) → String → Finset String
  | [], _ => ∅
  | (k, v) :: rest, s => if k = s then v else lookupFinset rest s

/-- Association-list lookup for the package map. -/
def lookupPackage : List (String × String) → String → Option String
  | [], _ => none
  | (k, v) :: rest, s => if k = s then some v else lookupPackage rest s

/-- `HashMap::insert` for the package map: replace an existing binding or
append a new one. -/
def insertPackage : List (String × String) → String → String →
    List (String × String)
  | [], k, v => [(k, v)]
  | (k0, v0) :: rest, k, v =>
    if k0 = k then (k0, v) :: rest else (k0, v0) :: insertPackage rest k v

/-- `self.dependencies.insert(file_path, deps)`: overwrite or append. -/
def setDeps : List (String × Finset String) → String → Finset String →
    List (String × Finset String)
  | [], k, v => [(k, v)]
  | (k0, v0) :: rest, k, v =>
    if k0 = k then (k0, v) :: rest else (k0, v0) :: setDeps rest k v

/-- `self.reverse_dependencies.entry(dep).or_insert_with(HashSet::new)
.insert(file)`. -/
def addReverse : List (String × Finset String) → String → String →
    List (String × Finset String)
  | [], dep, file => [(dep, {file})]
  | (k0, v0) :: rest, dep, file =>
    if k0 = dep then (k0, insert file v0) :: rest
    else (k0, v0) :: addReverse rest dep file

/-- `resolve_import`: exact match in the package map first, then the first
package the import string is a prefix of (hash-map iteration order is the
list order here; the spec flags this prefix resolution as inherently
ambiguous). -/
def resolve_import (package_map : List (String × String)) (imp : String) :
    Option String :=
  match lookupPackage package_map imp with
  | some file => some file
  | none =>
    (package_map.find? (fun p => imp.toList.isPrefixOf p.1.toList)).map
      (fun p => p.2)

/-- First pass of `build`: index `package.PrimaryClass → file` for every file
whose package extraction succeeds and that declares a primary class. -/
def buildPackageMap (fs : String → Option String) (files : List String)
    (pm : List (String × String)) : List (String × String) :=
  files.foldl
    (fun pm file =>
      match extract_package_name fs file with
      | .ok package_name =>
        match extract_primary_class_name fs file with
        | some class_name =>
          insertPackage pm (package_name ++ "." ++ class_name) file
        | none => pm
      | .error _ => pm)
    pm

/-- Resolution of a single import inside the `build` loop: a resolved import
adds a forward edge to `deps` and the mirrored reverse edge; an
unresolved import is dropped (no edge). -/
def resolveStep (package_map : List (String × String)) (file_path : String)
    (acc : Finset String × List (String × Finset String)) (imp : String) :
    Finset String × List (String × Finset String) :=
  match resolve_import package_map imp with
  | some dep_file => (insert dep_file acc.1, addReverse acc.2 dep_file file_path)
  | none => acc

/-- Resolution of one file's imports: the accumulated forward-edge set and
the updated reverse map (unresolved imports are dropped, adding no edge). -/
def resolveFileImports (package_map : List (String × String))
    (file_path : String) (imports : List String)
    (racc : List (String × Finset String)) :
    Finset String × List (String × Finset String) :=
  imports.foldl (resolveStep package_map file_path) (∅, racc)

/-- Second pass of `build`: extract each file's imports (`?` propagates a
read failure), resolve them, record forward and mirrored reverse edges. -/
def buildPass2 (fs : String → Option String) :
    List String → DependencyGraph → Except String DependencyGraph
  | [], g => .ok g
  | file :: rest, g =>
    match extract_imports fs file with
    | .error e => .error e
    | .ok imports =>
      let step := resolveFileImports g.package_map file imports
        g.reverse_dependencies
      buildPass2 fs rest
        { g with
          dependencies := setDeps g.dependencies file step.1
          reverse_dependencies := step.2 }

/-- Model of `DependencyGraph::build` (two passes over the file list). -/
def DependencyGraph.build (fs : String → Option String) (g : DependencyGraph)
    (files : List String) : Except String DependencyGraph :=
  buildPass2 fs files
    { g with package_map := buildPackageMap fs files g.package_map }

/-- The forward/reverse mirror invariant: every forward edge `f → d` has the
mirrored edge `f ∈ reverse[d]`. -/
def mirrorInvariant (g : DependencyGraph) : Prop :=
  ∀ f d, d ∈ lookupFinset g.dependencies f →
    f ∈ lookupFinset g.reverse_dependencies d

/-- Decidable equality for `Except` results, so concrete runs of the
embedded fallible operations can be checked by `decide`. -/
instance {α β : Type} [DecidableEq α] [DecidableEq β] :
    DecidableEq (Except α β)
  | .error x, .error y => decidable_of_iff (x = y) (by simp)
  | .error _, .ok _ => isFalse (fun hc => by cases hc)
  | .ok _, .error _ => isFalse (fun hc => by cases hc)
  | .ok x, .ok y => decidable_of_iff (x = y) (by simp)

/-! #### The forward/reverse mirror invariant is established by `build` -/

theorem lookupFinset_setDeps_self (m : List (String × Finset String))
    (k : String) (v : Finset String) :
    lookupFinset (setDeps m k v) k = v := by
  induction m with
  | nil => simp [setDeps, lookupFinset]
  | cons p rest ih =>
    obtain ⟨k0, v0⟩ := p
    by_cases hk : k0 = k
    · simp [setDeps, lookupFinset, hk]
    · simp [setDeps, lookupFinset, hk, ih]

theorem lookupFinset_setDeps_ne (m : List (String × Finset String))
    (k f : String) (v : Finset String) (hf : f ≠ k) :
    lookupFinset (setDeps m k v) f = lookupFinset m f := by
  have hkf : k ≠ f := fun h => hf h.symm
  induction m with
  | nil => simp [setDeps, lookupFinset, hkf]
  | cons p rest ih =>
    obtain ⟨k0, v0⟩ := p
    by_cases hk : k0 = k
    · subst hk
      simp [setDeps, lookupFinset, hkf]
    · simp [setDeps, lookupFinset, hk, ih]

theorem mem_lookupFinset_addReverse_self (m : List (String × Finset String))
    (dep file : String) :
    file ∈ lookupFinset (addReverse m dep file) dep := by
  induction m with
  | nil => simp [addReverse, lookupFinset]
  | cons p rest ih =>
    obtain ⟨k0, v0⟩ := p
    by_cases hk : k0 = dep
    · simp [addReverse, lookupFinset, hk]
    · simp [addReverse, lookupFinset, hk, ih]

theorem mem_lookupFinset_addReverse_mono (m : List (String × Finset String))
    (dep file k x : String) (hx : x ∈ lookupFinset m k) :
    x ∈ lookupFinset (addReverse m dep file) k := by
  induction m with
  | nil => simp [lookupFinset] at hx
  | cons p rest ih =>
    obtain ⟨k0, v0⟩ := p
    by_cases hk0 : k0 = k
    · subst hk0
      simp only [lookupFinset, if_pos] at hx
      by_cases hdep : k0 = dep
      · subst hdep
        simp [addReverse, lookupFinset, Finset.mem_insert]
        exact Or.inr hx
      · simp [addReverse, lookupFinset, hdep, hx]
    · simp only [lookupFinset, if_neg hk0] at hx
      by_cases hdep : k0 = dep
      · subst hdep
        simp [addReverse, lookupFinset, hk0, hx]
      · simp [addReverse, lookupFinset, hdep, hk0, ih hx]

/-- Invariant of the import-resolution fold: every forward edge accumulated
so far is mirrored in the reverse map, and the reverse map only grows. -/
theorem resolveFold_invariant (pm : List (String × String)) (file : String) :
    ∀ (imports : List String) (acc : Finset String × List (String × Finset String)),
      (∀ d ∈ acc.1, file ∈ lookupFinset acc.2 d) →
      (∀ d ∈ (imports.foldl (resolveStep pm file) acc).1,
          file ∈ lookupFinset (imports.foldl (resolveStep pm file) acc).2 d) ∧
      (∀ k x, x ∈ lookupFinset acc.2 k →
          x ∈ lookupFinset (imports.foldl (resolveStep pm file) acc).2 k) := by
  intro imports
  induction imports with
  | nil => intro acc hacc; exact ⟨hacc, fun k x hx => hx⟩
  | cons imp rest ih =>
    intro acc hacc
    simp only [List.foldl_cons]
    rcases hstep : resolve_import pm imp with _ | dep_file
    · have heq : resolveStep pm file acc imp = acc := by
        simp [resolveStep, hstep]
      rw [heq]
      exact ih acc hacc
    · have hs : resolveStep pm file acc imp =
          (insert dep_file acc.1, addReverse acc.2 dep_file file) := by
        simp [resolveStep, hstep]
      rw [hs]
      have hacc2 : ∀ d ∈ (insert dep_file acc.1,
          addReverse acc.2 dep_file file).1,
          file ∈ lookupFinset (insert dep_file acc.1,
            addReverse acc.2 dep_file file).2 d := by
        intro d hd
        rcases Finset.mem_insert.mp hd with hd | hd
        · subst hd
          exact mem_lookupFinset_addReverse_self _ _ _
        · exact mem_lookupFinset_addReverse_mono _ _ _ _ _ (hacc d hd)
      obtain ⟨h1, h2⟩ := ih _ hacc2
      refine ⟨h1, fun k x hx => h2 k x ?_⟩
      exact mem_lookupFinset_addReverse_mono _ _ _ _ _ hx

/-- The second pass of `build` preserves the mirror invariant. -/
theorem buildPass2_mirror (fs : String → Option String) :
    ∀ (files : List String) (g g' : DependencyGraph),
      mirrorInvariant g → buildPass2 fs files g = .ok g' →
      mirrorInvariant g' := by
  intro files
  induction files with
  | nil =>
    intro g g' hg hok
    simp only [buildPass2] at hok
    cases hok
    exact hg
  | cons file rest ih =>
    intro g g' hg hok
    simp only [buildPass2] at hok
    rcases himp : extract_imports fs file with e | imports
    · rw [himp] at hok; cases hok
    · rw [himp] at hok
      apply ih _ _ _ hok
      -- the intermediate graph keeps the invariant
      have hfold := resolveFold_invariant g.package_map file imports
        (∅, g.reverse_dependencies) (by intro d hd; simp at hd)
      simp only [resolveFileImports] at hok ⊢
      intro f d hd
      simp only at hd ⊢
      by_cases hf : f = file
      · subst hf
        rw [lookupFinset_setDeps_self] at hd
        exact hfold.1 d hd
      · rw [lookupFinset_setDeps_ne _ _ _ _ hf] at hd
        exact hfold.2 d f (hg f d hd)

example :
    DependencyGraph.build
      (fun p =>
        if p = "Y.kt" then some "package com.example\nclass Foo"
        else if p = "X.kt" then some "import com.example.Foo\nclass Bar"
        else none)
      DependencyGraph.new ["Y.kt", "X.kt"]
      = .ok ⟨[("Y.kt", ∅), ("X.kt", {"Y.kt"})], [("Y.kt", {"X.kt"})],
          [("com.example.Foo", "Y.kt"), (".Bar", "X.kt")]⟩ := by decide

/-! ### Domain entities (src/domain/entities.rs)

`f64` ratios are modelled as exact rational division (`ℚ`); IEEE rounding is
outside the model, the guard logic is what the claims are about. -/

namespace domain

/-- Platform enumeration. -/
inductive Platform where
  | Android
  | IOS
deriving DecidableEq

/-- `Platform::name`. -/
def Platform.name : Platform → String
  | .Android => "Android"
  | .IOS => "iOS"

/-- Programming language. -/
inductive Language where
  | Kotlin
  | Java
  | Swift
  | ObjectiveC
deriving DecidableEq

/-- Source file entity. -/
structure SourceFile where
  path : String
  platform : Platform
  language : Language
  content : String
deriving DecidableEq

/-- Symbol type enumeration. -/
inductive SymbolType where
  | Class
  | Interface
  | Object
  | Function
  | Property
  | TypeAlias
deriving DecidableEq

/-- Core domain entity: KMP symbol. -/
structure Symbol where
  name : String
  symbol_type : SymbolType
  module : String
  file_path : String
  is_public : Bool
deriving DecidableEq

/-- Symbol usage in a specific location (domain layer, one per occurrence). -/
structure SymbolUsage where
  symbol_name : String
  file_path : String
  line_number : Nat
  context : String
deriving DecidableEq

/-- Platform-specific impact. -/
structure PlatformImpact where
  platform_name : String
  total_files : Nat
  total_lines : Nat
  affected_files : Finset String
  affected_lines : Nat
  impact_ratio : ℚ
  top_symbols : List (String × Nat)
deriving DecidableEq

/-- `PlatformImpact::new`: everything defaulted except the name. -/
def PlatformImpact.new (platform_name : String) : PlatformImpact :=
  ⟨platform_name, 0, 0, ∅, 0, 0, []⟩

/-- `PlatformImpact::calculate_impact_ratio`: divide only under the
`total_lines > 0` guard, otherwise leave the stored ratio unchanged. -/
def PlatformImpact.calculate_impact_ratio (p : PlatformImpact) : PlatformImpact :=
  if 0 < p.total_lines then
    { p with impact_ratio := (p.affected_lines : ℚ) / (p.total_lines : ℚ) }
  else p

/-- Impact analysis result (aggregate domain entity). -/
structure ImpactAnalysis where
  total_symbols : Nat
  total_app_files : Nat
  total_app_lines : Nat
  affected_files : Finset String
  affected_lines : Nat
  impact_ratio : ℚ
  platform_impacts : List (String × PlatformImpact)
  symbol_usages : List (String × List SymbolUsage)
deriving DecidableEq

/-- `ImpactAnalysis::calculate_impact_ratio` (same guard as the platform one). -/
def ImpactAnalysis.calculate_impact_ratio (a : ImpactAnalysis) : ImpactAnalysis :=
  if 0 < a.total_app_lines then
    { a with impact_ratio := (a.affected_lines : ℚ) / (a.total_app_lines : ℚ) }
  else a

end domain

/-! ### Platform line counting
(src/adapters/platforms/android.rs and ios.rs)

Kotlin/Java and Swift/Objective-C comment checks are textually identical, so
the two per-language counters of each platform coincide; the content-based
language dispatch is still reproduced. -/

/-- `is_kotlin_comment` / `is_java_comment` / `is_swift_comment` /
`is_objc_comment`: trimmed line starts with `//`, `/*` or `*`. -/
def is_line_comment (line : String) : Bool :=
  let trimmed := strTrim line
  strStartsWith trimmed "//" || strStartsWith trimmed "/*" ||
    strStartsWith trimmed "*"

/-- Count of non-blank, non-comment lines (the body shared by
`count_kotlin_lines`, `count_java_lines`, `count_swift_lines` and
`count_objc_lines`). -/
def count_noncomment_lines (content : String) : Nat :=
  ((rustLines content).filter
    (fun line =>
      let trimmed := strTrim line
      !(trimmed = "") && !is_line_comment trimmed)).length

/-- `AndroidPlatform::count_code_lines`: Kotlin/Java heuristic dispatch
(both branches count identically). -/
def AndroidPlatform.count_code_lines (content : String) : Nat :=
  if strContainsSub content "fun " || strContainsSub content "val " ||
      strContainsSub content "var " then
    count_noncomment_lines content
  else
    count_noncomment_lines content

/-- `IOSPlatform::count_code_lines`: Swift/Objective-C heuristic dispatch
(both branches count identically). -/
def IOSPlatform.count_code_lines (content : String) : Nat :=
  if strContainsSub content "func " || strContainsSub content "let " ||
      strContainsSub content "var " then
    count_noncomment_lines content
  else
    count_noncomment_lines content

/-- `SourceFileRepositoryImpl::count_code_lines`: dispatch on the platform. -/
def count_code_lines (content : String) (platform : domain.Platform) : Nat :=
  match platform with
  | .Android => AndroidPlatform.count_code_lines content
  | .IOS => IOSPlatform.count_code_lines content

example : count_code_lines "fun main() \x7b\n    // comment\n    bar()\n\x7d\n"
    domain.Platform.Android = 3 := by decide

/-! ### `SourceFileRepositoryImpl` (src/adapters/repositories/
source_file_repository_impl.rs) -/

/-- `detect_language` from the file extension. -/
def detect_language (file_path : String) : domain.Language :=
  if strEndsWith file_path ".kt" || strEndsWith file_path ".kts" then .Kotlin
  else if strEndsWith file_path ".java" then .Java
  else if strEndsWith file_path ".swift" then .Swift
  else .ObjectiveC

/-- `read_source_file`: read the content (an unreadable path is an I/O
error), detect language and platform from the path. -/
def read_source_file (fs : String → Option String) (file_path : String) :
    Except String domain.SourceFile :=
  match fs file_path with
  | none => .error file_path
  | some content =>
    let platform :=
      if strContainsSub file_path "android" || strEndsWith file_path ".kt" ||
          strEndsWith file_path ".java" then
        domain.Platform.Android
      else domain.Platform.IOS
    .ok ⟨file_path, platform, detect_language file_path, content⟩

/-! ### `SymbolUsageRepositoryImpl` (src/adapters/repositories/
symbol_usage_repository_impl.rs) -/

/-- Comment/import prefixes per language. -/
def get_comment_prefixes (source_file : domain.SourceFile) : List String :=
  match source_file.language with
  | .Kotlin | .Java => ["//", "/*", "*", "import "]
  | .Swift | .ObjectiveC => ["//", "/*", "*", "import ", "#import"]

/-- `detect_symbol_usage`: run the pattern detection, then flatten each
aggregated entry into one domain `SymbolUsage` per recorded location.
(The Rust function always returns `Ok`, so it is modelled as total.) -/
def detect_symbol_usage (source_file : domain.SourceFile)
    (symbols : List domain.Symbol) : List domain.SymbolUsage :=
  let symbol_names := symbols.map (fun s => s.name)
  let usages_map := detect_usage_with_patterns source_file.content
    source_file.path symbol_names (get_comment_prefixes source_file)
  usages_map.foldl
    (fun acc p =>
      acc ++ p.2.usage_lines.map
        (fun loc => ⟨p.1, loc.file, loc.line, loc.context⟩))
    []

/-! ### `DetectUsageUseCase::execute` (src/use_cases/detect_usage.rs)

Note the `?` on `read_source_file`: a failing read aborts the whole batch
(in contrast to the line counting below, which skips unreadable files). -/

/-- `all_usages.entry(usage.symbol_name).or_insert_with(Vec::new).push(usage)`. -/
def addUsage (m : List (String × List domain.SymbolUsage))
    (u : domain.SymbolUsage) : List (String × List domain.SymbolUsage) :=
  match m with
  | [] => [(u.symbol_name, [u])]
  | (k, us) :: rest =>
    if k = u.symbol_name then (k, us ++ [u]) :: rest
    else (k, us) :: addUsage rest u

/-- The per-file loop of `execute`: `read_source_file(file_path)?` then
aggregate the detected usages by symbol name. -/
def detectUsageFiles (fs : String → Option String)
    (symbols : List domain.Symbol) :
    List String → List (String × List domain.SymbolUsage) →
    Except String (List (String × List domain.SymbolUsage))
  | [], m => .ok m
  | file_path :: rest, m =>
    match read_source_file fs file_path with
    | .error e => .error e
    | .ok source_file =>
      detectUsageFiles fs symbols rest
        ((detect_symbol_usage source_file symbols).foldl addUsage m)

/-- The per-platform loop of `execute`. -/
def detectUsagePlatforms (fs : String → Option String)
    (symbols : List domain.Symbol) :
    List (domain.Platform × List String) →
    List (String × List domain.SymbolUsage) →
    Except String (List (String × List domain.SymbolUsage))
  | [], m => .ok m
  | (_, file_paths) :: rest, m =>
    match detectUsageFiles fs symbols file_paths m with
    | .error e => .error e
    | .ok m2 => detectUsagePlatforms fs symbols rest m2

/-- Model of `DetectUsageUseCase::execute` (lines 27–60). -/
def DetectUsageUseCase.execute (fs : String → Option String)
    (app_files_by_platform : List (domain.Platform × List String))
    (symbols : List domain.Symbol) :
    Except String (List (String × List domain.SymbolUsage)) :=
  detectUsagePlatforms fs symbols app_files_by_platform []

/-! ### `AnalyzeImpactUseCase::calculate_platform_impacts`
(src/use_cases/analyze_impact.rs, lines 105–186)

The two `if let Ok(file) = read_source_file(..)` loops add an unreadable
file's count as nothing, i.e. contribute `0`. -/

/-- Code-line count of one file, `0` when the read fails (the `if let Ok`
skip). -/
def readLineCount (fs : String → Option String) (platform : domain.Platform)
    (file_path : String) : Nat :=
  match read_source_file fs file_path with
  | .ok file => count_code_lines file.content platform
  | .error _ => 0

/-- Stable insertion into a count-descending list (`sort_by(|a, b|
b.1.cmp(&a.1))` is a stable descending sort). -/
def insertDescByCount (x : String × Nat) :
    List (String × Nat) → List (String × Nat)
  | [] => [x]
  | y :: ys => if y.2 < x.2 then x :: y :: ys else y :: insertDescByCount x ys

/-- Stable descending sort by count. -/
def sortDescByCount : List (String × Nat) → List (String × Nat)
  | [] => []
  | x :: xs => insertDescByCount x (sortDescByCount xs)

/-- `calculate_top_symbols`: per-symbol occurrence counts restricted to the
platform's files, positive counts only, sorted descending, top 10. -/
def calculate_top_symbols
    (symbol_usages : List (String × List domain.SymbolUsage))
    (platform_files : List String) : List (String × Nat) :=
  let symbol_counts := symbol_usages.foldl
    (fun acc p =>
      let count := (p.2.filter
        (fun u => decide (u.file_path ∈ platform_files))).length
      if 0 < count then acc ++ [(p.1, count)] else acc)
    []
  (sortDescByCount symbol_counts).take 10

/-- The per-platform body of `calculate_platform_impacts`: total lines over
all files, the platform's direct/transitive subsets, affected lines over
their union (iterated as `chain`), top symbols, then the guarded ratio. -/
def calculate_platform_impact (fs : String → Option String)
    (platform : domain.Platform) (files : List String)
    (symbol_usages : List (String × List domain.SymbolUsage))
    (direct_files transitive_files : List String) : domain.PlatformImpact :=
  let platform_direct : Finset String :=
    (direct_files.filter (fun f => decide (f ∈ files))).toFinset
  let platform_transitive : Finset String :=
    (transitive_files.filter (fun f => decide (f ∈ files))).toFinset
  let impact : domain.PlatformImpact :=
    { domain.PlatformImpact.new platform.name with
      total_files := files.length
      total_lines := (files.map (readLineCount fs platform)).sum
      affected_files := platform_direct
      affected_lines := platform_direct.sum (readLineCount fs platform) +
        platform_transitive.sum (readLineCount fs platform)
      top_symbols := calculate_top_symbols symbol_usages files }
  impact.calculate_impact_ratio

/-- Model of `calculate_platform_impacts`: one impact per platform entry. -/
def calculate_platform_impacts (fs : String → Option String)
    (app_files : List (domain.Platform × List String))
    (symbol_usages : List (String × List domain.SymbolUsage))
    (direct_files transitive_files : List String) :
    List (domain.Platform × domain.PlatformImpact) :=
  app_files.map
    (fun p => (p.1,
      calculate_platform_impact fs p.1 p.2 symbol_usages direct_files
        transitive_files))

/-- Step 6 of `AnalyzeImpactUseCase::execute` (lines 79–94): aggregate the
overall `ImpactAnalysis` from the per-platform impacts, then apply the
zero-guarded ratio. -/
def aggregateImpactAnalysis (total_symbols : Nat)
    (app_files : List (domain.Platform × List String))
    (direct_affected_files : List String)
    (platform_impacts : List (domain.Platform × domain.PlatformImpact))
    (symbol_usages : List (String × List domain.SymbolUsage)) :
    domain.ImpactAnalysis :=
  let ia : domain.ImpactAnalysis :=
    { total_symbols := total_symbols
      total_app_files := (app_files.map (fun p => p.2.length)).sum
      total_app_lines := (platform_impacts.map (fun p => p.2.total_lines)).sum
      affected_files := direct_affected_files.toFinset
      affected_lines :=
        (platform_impacts.map (fun p => p.2.affected_lines)).sum
      impact_ratio := 0
      platform_impacts := platform_impacts.map (fun p => (p.1.name, p.2))
      symbol_usages := symbol_usages }
  ia.calculate_impact_ratio

/-! ### `SymbolExtractor` (src/analyzer/symbol_extractor.rs) and
`SymbolRepositoryImpl` (src/adapters/repositories/symbol_repository_impl.rs) -/

namespace analyzer

/-- Symbol type enumeration (analyzer layer). -/
inductive SymbolType where
  | Class
  | Interface
  | Object
  | Function
  | Property
  | TypeAlias
deriving DecidableEq

/-- KMP symbol information (analyzer layer). -/
structure KmpSymbol where
  name : String
  symbol_type : SymbolType
  module : String
  file_path : String
  is_public : Bool
deriving DecidableEq

end analyzer

/-- `is_private_file`: the coarse file-level privacy heuristic. -/
def is_private_file (content : String) : Bool :=
  strContainsSub content "internal " || strStartsWith content "private "

/-- All captures of a per-line declaration regex over the file content. -/
def extractKind (content : String) (kw : String) (firstOk : Char → Bool)
    (post : List Char → Bool) : List String :=
  (rustLines content).filterMap (matchDeclName kw firstOk post)

/-- Post-condition `\s*\(` of the function regex. -/
def postParen (cs : List Char) : Bool :=
  decide ((cs.dropWhile Char.isWhitespace).head? = some '(')

/-- Post-condition `\s*[:=]` of the property regex. -/
def postColonEq (cs : List Char) : Bool :=
  decide ((cs.dropWhile Char.isWhitespace).head? = some ':') ||
    decide ((cs.dropWhile Char.isWhitespace).head? = some '=')

/-- `SymbolExtractor::extract_symbols`: read the file (fail-fast on an
unreadable path), skip private/internal files entirely, then collect the
six symbol kinds in extraction-kind order. -/
def SymbolExtractor.extract_symbols (fs : String → Option String)
    (file_path : String) (module : String) :
    Except String (List analyzer.KmpSymbol) :=
  match fs file_path with
  | none => .error file_path
  | some content =>
    if is_private_file content then .ok []
    else
      let mk := fun (ty : analyzer.SymbolType) (name : String) =>
        analyzer.KmpSymbol.mk name ty module file_path true
      .ok
        ((extractKind content "class" Char.isUpper (fun _ => true)).map
            (mk .Class) ++
          (extractKind content "interface" Char.isUpper (fun _ => true)).map
            (mk .Interface) ++
          (extractKind content "object" Char.isUpper (fun _ => true)).map
            (mk .Object) ++
          (extractKind content "fun" Char.isLower postParen).map
            (mk .Function) ++
          ((rustLines content).filterMap
            (fun line =>
              match matchDeclName "val" Char.isLower postColonEq line with
              | some name => some name
              | none => matchDeclName "var" Char.isLower postColonEq line)).map
            (mk .Property) ++
          (extractKind content "typealias" Char.isUpper (fun _ => true)).map
            (mk .TypeAlias))

/-- Rust `str::find` for a literal pattern (first character index). -/
def findSub (s pat : String) : Option Nat :=
  (List.range (s.toList.length + 1)).find?
    (fun i => pat.toList.isPrefixOf (s.toList.drop i))

/-- Rust `str::rfind` for a character (last character index). -/
def rfindChar (s : String) (c : Char) : Option Nat :=
  (List.range s.toList.length).foldl
    (fun acc i => if s.toList.get? i = some c then some i else acc) none

/-- `SymbolRepositoryImpl::determine_module_name`. -/
def determine_module_name (file_path : String) : String :=
  match findSub file_path "/src/" with
  | some idx =>
    let before := String.mk (file_path.toList.take idx)
    match rfindChar before '/' with
    | some last_slash => String.mk (before.toList.drop (last_slash + 1))
    | none => before
  | none => "unknown"

/-- `SymbolRepositoryImpl::convert_symbol_type`. -/
def convert_symbol_type : analyzer.SymbolType → domain.SymbolType
  | .Class => .Class
  | .Interface => .Interface
  | .Object => .Object
  | .Function => .Function
  | .Property => .Property
  | .TypeAlias => .TypeAlias

/-- `SymbolRepositoryImpl::extract_kmp_symbols`: per-file extraction with
`?`; the first unreadable file fails the whole operation and no partial
symbol list is returned. -/
def extract_kmp_symbols (fs : String → Option String) :
    List String → Except String (List domain.Symbol)
  | [] => .ok []
  | file_path :: rest =>
    match SymbolExtractor.extract_symbols fs file_path
        (determine_module_name file_path) with
    | .error e => .error e
    | .ok extracted =>
      match extract_kmp_symbols fs rest with
      | .error e => .error e
      | .ok more =>
        .ok ((extracted.map
          (fun s => domain.Symbol.mk s.name (convert_symbol_type s.symbol_type)
            s.module s.file_path s.is_public)) ++ more)

example :
    extract_kmp_symbols
      (fun p => if p = "shared/src/User.kt" then
        some "package com.example\nclass User\nfun getUser(): User {}"
        else none)
      ["shared/src/User.kt"]
      = .ok [⟨"User", .Class, "shared", "shared/src/User.kt", true⟩,
             ⟨"getUser", .Function, "shared", "shared/src/User.kt", true⟩] := by
  decide

/-! ### Bookkeeping lemmas for the usage map -/

/-- Number of non-comment lines of `content` on which the usage pattern for
`sym` matches (what `reference_count` actually tallies). -/
def matchedLineCount (content : String) (comment_prefixes : List String)
    (sym : String) : Nat :=
  ((rustLines content).filter
    (fun line =>
      !isCommentLine comment_prefixes line && symbolPatternMatches sym line)).length

theorem lookupUsage_updateUsage_ne (m : List (String × analyzer.SymbolUsage))
    (sym s file_path : String) (line_num : Nat) (ctx : String) (hs : s ≠ sym) :
    lookupUsage (updateUsage m sym file_path line_num ctx) s =
      lookupUsage m s := by
  have hsym : sym ≠ s := fun h => hs h.symm
  induction m with
  | nil => simp [updateUsage, lookupUsage, hsym]
  | cons p rest ih =>
    obtain ⟨k, u⟩ := p
    by_cases hk : k = sym
    · subst hk
      simp [updateUsage, lookupUsage, hsym]
    · by_cases hks : k = s
      · simp [updateUsage, lookupUsage, hk, hks, hs]
      · simp [updateUsage, lookupUsage, hk, hks, ih]

theorem refCountOf_updateUsage_self (m : List (String × analyzer.SymbolUsage))
    (sym file_path : String) (line_num : Nat) (ctx : String) :
    refCountOf (updateUsage m sym file_path line_num ctx) sym =
      refCountOf m sym + 1 := by
  induction m with
  | nil => simp [updateUsage, lookupUsage, refCountOf, bumpUsage, emptyUsage]
  | cons p rest ih =>
    obtain ⟨k, u⟩ := p
    by_cases hk : k = sym
    · subst hk
      simp [updateUsage, lookupUsage, refCountOf, bumpUsage]
    · have h1 : updateUsage ((k, u) :: rest) sym file_path line_num ctx =
          (k, u) :: updateUsage rest sym file_path line_num ctx := by
        simp [updateUsage, hk]
      have h2 : ∀ (l : List (String × analyzer.SymbolUsage)),
          refCountOf ((k, u) :: l) sym = refCountOf l sym := by
        intro l
        unfold refCountOf
        simp [lookupUsage, hk]
      rw [h1, h2, h2, ih]

theorem lookupUsage_symFold_not_mem (file_path : String) (line_num : Nat)
    (line trimmed s : String) :
    ∀ (syms : List String) (m : List (String × analyzer.SymbolUsage)),
      s ∉ syms →
      lookupUsage (syms.foldl (symStep file_path line_num line trimmed) m) s =
        lookupUsage m s := by
  intro syms
  induction syms with
  | nil => intro m _; rfl
  | cons a rest ih =>
    intro m hs
    have ha : s ≠ a := fun h => hs (h ▸ List.mem_cons_self a rest)
    have hrest : s ∉ rest := fun h => hs (List.mem_cons_of_mem a h)
    simp only [List.foldl_cons]
    rw [ih _ hrest]
    unfold symStep
    split
    · exact lookupUsage_updateUsage_ne _ _ _ _ _ _ ha
    · rfl

theorem refCountOf_symFold (file_path : String) (line_num : Nat)
    (line trimmed s : String) :
    ∀ (syms : List String) (m : List (String × analyzer.SymbolUsage)),
      syms.Nodup → s ∈ syms →
      refCountOf (syms.foldl (symStep file_path line_num line trimmed) m) s =
        refCountOf m s + (if symbolPatternMatches s line then 1 else 0) := by
  intro syms
  induction syms with
  | nil => intro m _ hs; cases hs
  | cons a rest ih =>
    intro m hnd hs
    have hnda : a ∉ rest := (List.nodup_cons.mp hnd).1
    have hndr : rest.Nodup := (List.nodup_cons.mp hnd).2
    simp only [List.foldl_cons]
    rcases List.mem_cons.mp hs with hsa | hsr
    · subst hsa
      have hnotin : s ∉ rest := hnda
      rw [show refCountOf (rest.foldl (symStep file_path line_num line trimmed)
          (symStep file_path line_num line trimmed m s)) s =
          refCountOf (symStep file_path line_num line trimmed m s) s from by
        unfold refCountOf
        rw [lookupUsage_symFold_not_mem _ _ _ _ _ _ _ hnotin]]
      unfold symStep
      split
      · rw [refCountOf_updateUsage_self]
      · rfl
    · have hsa : s ≠ a := fun h => hnda (h ▸ hsr)
      rw [ih _ hndr hsr]
      unfold symStep
      split
      · unfold refCountOf
        rw [lookupUsage_updateUsage_ne _ _ _ _ _ _ hsa]
      · rfl

theorem refCountOf_lineFold (file_path : String) (syms : List String)
    (comment_prefixes : List String) (s : String) (hnd : syms.Nodup)
    (hs : s ∈ syms) :
    ∀ (entries : List (Nat × String)) (m : List (String × analyzer.SymbolUsage)),
      refCountOf (entries.foldl (lineStep file_path syms comment_prefixes) m) s =
        refCountOf m s +
          (entries.countP (fun e =>
            !isCommentLine comment_prefixes e.2 && symbolPatternMatches s e.2)) := by
  intro entries
  induction entries with
  | nil => intro m; simp
  | cons e rest ih =>
    intro m
    simp only [List.foldl_cons, List.countP_cons]
    rw [ih]
    unfold lineStep
    by_cases hc : isCommentLine comment_prefixes e.2
    · simp [hc]
    · rw [if_neg hc,
        refCountOf_symFold file_path e.1 e.2 (strTrim e.2) s syms m hnd hs]
      simp [hc]
      split <;> omega

theorem countP_enumFrom {α : Type} (p : α → Bool) :
    ∀ (l : List α) (n : Nat),
      ((l.enumFrom n).countP (fun e => p e.2)) = l.countP p := by
  intro l
  induction l with
  | nil => intro n; rfl
  | cons a rest ih =>
    intro n
    simp only [List.enumFrom, List.countP_cons, ih]

/-- Well-formedness of one usage-map entry: count and recorded locations in
sync, and the scanned file recorded. -/
def usageEntryOk (file_path : String) (p : String × analyzer.SymbolUsage) :
    Prop :=
  p.2.reference_count = p.2.usage_lines.length ∧
  file_path ∈ p.2.used_in_files ∧
  ∀ loc ∈ p.2.usage_lines, loc.file = file_path

theorem usageEntryOk_bump (file_path k : String) (line_num : Nat)
    (ctx : String) (u : analyzer.SymbolUsage)
    (h : usageEntryOk file_path (k, u)) :
    usageEntryOk file_path (k, bumpUsage file_path line_num ctx u) := by
  obtain ⟨h1, h2, h3⟩ := h
  dsimp only at h1 h2 h3
  refine ⟨?_, ?_, ?_⟩
  · dsimp only
    simp [bumpUsage, h1]
  · dsimp only
    simp [bumpUsage]
  · intro loc hloc
    dsimp only [bumpUsage] at hloc
    rcases List.mem_append.mp hloc with hloc | hloc
    · exact h3 loc hloc
    · rw [List.mem_singleton.mp hloc]

theorem usageEntryOk_fresh (file_path sym : String) (line_num : Nat)
    (ctx : String) :
    usageEntryOk file_path
      (sym, bumpUsage file_path line_num ctx (emptyUsage sym)) := by
  refine ⟨?_, ?_, ?_⟩
  · dsimp only
    simp [bumpUsage, emptyUsage]
  · dsimp only
    simp [bumpUsage, emptyUsage]
  · intro loc hloc
    dsimp only [bumpUsage, emptyUsage] at hloc
    have : loc = ⟨file_path, line_num + 1, ctx⟩ := by
      simpa using hloc
    rw [this]

theorem usageEntryOk_updateUsage (file_path sym : String) (line_num : Nat)
    (ctx : String) :
    ∀ (m : List (String × analyzer.SymbolUsage)),
      (∀ q ∈ m, usageEntryOk file_path q) →
      ∀ p ∈ updateUsage m sym file_path line_num ctx,
        usageEntryOk file_path p := by
  intro m
  induction m with
  | nil =>
    intro _ p hp
    simp only [updateUsage, List.mem_singleton] at hp
    rw [hp]
    exact usageEntryOk_fresh file_path sym line_num ctx
  | cons q0 rest ih =>
    intro hm p hp
    obtain ⟨k, u⟩ := q0
    by_cases hk : k = sym
    · subst hk
      have hupd : updateUsage ((k, u) :: rest) k file_path line_num ctx =
          (k, bumpUsage file_path line_num ctx u) :: rest := by
        simp [updateUsage]
      rw [hupd] at hp
      rcases List.mem_cons.mp hp with hp | hp
      · rw [hp]
        exact usageEntryOk_bump file_path k line_num ctx u
          (hm (k, u) (List.mem_cons_self _ _))
      · exact hm p (List.mem_cons_of_mem _ hp)
    · have hupd : updateUsage ((k, u) :: rest) sym file_path line_num ctx =
          (k, u) :: updateUsage rest sym file_path line_num ctx := by
        simp [updateUsage, hk]
      rw [hupd] at hp
      rcases List.mem_cons.mp hp with hp | hp
      · rw [hp]
        exact hm (k, u) (List.mem_cons_self _ _)
      · exact ih (fun q hq => hm q (List.mem_cons_of_mem _ hq)) p hp

theorem usageEntryOk_symFold (file_path : String) (line_num : Nat)
    (line trimmed : String) :
    ∀ (syms : List String) (m : List (String × analyzer.SymbolUsage)),
      (∀ q ∈ m, usageEntryOk file_path q) →
      ∀ p ∈ syms.foldl (symStep file_path line_num line trimmed) m,
        usageEntryOk file_path p := by
  intro syms
  induction syms with
  | nil => intro m hm p hp; exact hm p hp
  | cons a rest ih =>
    intro m hm p hp
    simp only [List.foldl_cons] at hp
    apply ih (symStep file_path line_num line trimmed m a) _ p hp
    intro q hq
    unfold symStep at hq
    by_cases hmatch : symbolPatternMatches a line
    · rw [if_pos hmatch] at hq
      exact usageEntryOk_updateUsage file_path a line_num trimmed m hm q hq
    · rw [if_neg hmatch] at hq
      exact hm q hq

theorem usageEntryOk_lineFold (file_path : String) (syms : List String)
    (comment_prefixes : List String) :
    ∀ (entries : List (Nat × String))
      (m : List (String × analyzer.SymbolUsage)),
      (∀ q ∈ m, usageEntryOk file_path q) →
      ∀ p ∈ entries.foldl (lineStep file_path syms comment_prefixes) m,
        usageEntryOk file_path p := by
  intro entries
  induction entries with
  | nil => intro m hm p hp; exact hm p hp
  | cons e rest ih =>
    intro m hm p hp
    simp only [List.foldl_cons] at hp
    apply ih _ _ p hp
    intro q hq
    unfold lineStep at hq
    by_cases hc : isCommentLine comment_prefixes e.2
    · rw [if_pos hc] at hq
      exact hm q hq
    · rw [if_neg hc] at hq
      exact usageEntryOk_symFold file_path e.1 e.2 (strTrim e.2) syms m hm q hq

/-! ### Arithmetic helpers for the ratio claims -/

theorem toFinset_sum_le_list_sum (l : List String) (c : String → Nat) :
    l.toFinset.sum c ≤ (l.map c).sum := by
  induction l with
  | nil => simp
  | cons a rest ih =>
    simp only [List.toFinset_cons, List.map_cons, List.sum_cons]
    by_cases ha : a ∈ rest.toFinset
    · rw [Finset.insert_eq_self.mpr ha]
      exact le_trans ih (Nat.le_add_left _ _)
    · rw [Finset.sum_insert ha]
      exact Nat.add_le_add_left ih (c a)

theorem platformImpact_calcRatio_affected (p : domain.PlatformImpact) :
    (p.calculate_impact_ratio).affected_lines = p.affected_lines := by
  unfold domain.PlatformImpact.calculate_impact_ratio
  split <;> rfl

theorem platformImpact_calcRatio_total (p : domain.PlatformImpact) :
    (p.calculate_impact_ratio).total_lines = p.total_lines := by
  unfold domain.PlatformImpact.calculate_impact_ratio
  split <;> rfl

theorem platformImpact_calcRatio_bounds (p : domain.PlatformImpact)
    (hle : p.affected_lines ≤ p.total_lines) (h0 : p.impact_ratio = 0) :
    0 ≤ (p.calculate_impact_ratio).impact_ratio ∧
      (p.calculate_impact_ratio).impact_ratio ≤ 1 := by
  unfold domain.PlatformImpact.calculate_impact_ratio
  split
  · rename_i hpos
    constructor
    · show (0 : ℚ) ≤ (p.affected_lines : ℚ) / (p.total_lines : ℚ)
      positivity
    · show (p.affected_lines : ℚ) / (p.total_lines : ℚ) ≤ 1
      rw [div_le_one (by exact_mod_cast hpos)]
      exact_mod_cast hle
  · constructor
    · show (0 : ℚ) ≤ p.impact_ratio
      rw [h0]
    · show p.impact_ratio ≤ 1
      rw [h0]
      norm_num

theorem impactAnalysis_calcRatio_affected (a : domain.ImpactAnalysis) :
    (a.calculate_impact_ratio).affected_lines = a.affected_lines := by
  unfold domain.ImpactAnalysis.calculate_impact_ratio
  split <;> rfl

theorem impactAnalysis_calcRatio_total (a : domain.ImpactAnalysis) :
    (a.calculate_impact_ratio).total_app_lines = a.total_app_lines := by
  unfold domain.ImpactAnalysis.calculate_impact_ratio
  split <;> rfl

theorem impactAnalysis_calcRatio_bounds (a : domain.ImpactAnalysis)
    (hle : a.affected_lines ≤ a.total_app_lines) (h0 : a.impact_ratio = 0) :
    0 ≤ (a.calculate_impact_ratio).impact_ratio ∧
      (a.calculate_impact_ratio).impact_ratio ≤ 1 := by
  unfold domain.ImpactAnalysis.calculate_impact_ratio
  split
  · rename_i hpos
    constructor
    · show (0 : ℚ) ≤ (a.affected_lines : ℚ) / (a.total_app_lines : ℚ)
      positivity
    · show (a.affected_lines : ℚ) / (a.total_app_lines : ℚ) ≤ 1
      rw [div_le_one (by exact_mod_cast hpos)]
      exact_mod_cast hle
  · constructor
    · show (0 : ℚ) ≤ a.impact_ratio
      rw [h0]
    · show a.impact_ratio ≤ 1
      rw [h0]
      norm_num

/-! ### The claims -/

/-- C1: for every dependency graph and every set `D` of direct-impact file
paths, `compute_transitive_impact(D)` is disjoint from `D`: the BFS first
accumulates all reachable files (including members of `D` reached through
cycles) and only afterwards removes every member of `D`, so a file that is
in `D` and also reachable from `D` through a cycle is still excluded. -/
theorem claim_C1_transitive_impact_disjoint_direct
    (rev : List (String × List String)) (direct_impact_files : List String) :
    compute_transitive_impact rev direct_impact_files ∩
      direct_impact_files.toFinset = ∅ := by
  ext f
  simp only [compute_transitive_impact, Finset.mem_inter, Finset.mem_sdiff,
    Finset.not_mem_empty, iff_false]
  tauto

/-- C6: the BFS loop of `compute_transitive_impact` terminates on every
finite graph, cyclic ones included (the visited set lets each file be
processed at most once, so the loop always finishes within the `bfsFuel`
bound); on the reverse-edge cycle `A→B→A` with direct set `{A}` it returns
exactly the files reachable from `{A}` minus `{A}`, namely `{B}`. -/
theorem claim_C6_bfs_terminates_and_cycle
    : (∀ (rev : List (String × List String)) (direct : List String),
        (bfsLoopO rev (bfsFuel rev ∅ direct) ∅ direct).isSome = true) ∧
      compute_transitive_impact [("A", ["B"]), ("B", ["A"])] ["A"] = {"B"} :=
  ⟨fun rev direct => bfsLoopO_isSome rev _ ∅ direct (le_refl _), by decide⟩

/-- C7: whenever `total_lines = 0` (and the ratio still holds its `0.0`
default), `calculate_impact_ratio` leaves the ratio at exactly `0`: the
division is performed only under the `total_lines > 0` guard, both for a
platform impact and for the aggregate analysis. -/
theorem claim_C7_zero_division_guard :
    (∀ p : domain.PlatformImpact, p.total_lines = 0 → p.impact_ratio = 0 →
      (p.calculate_impact_ratio).impact_ratio = 0) ∧
    (∀ a : domain.ImpactAnalysis, a.total_app_lines = 0 → a.impact_ratio = 0 →
      (a.calculate_impact_ratio).impact_ratio = 0) := by
  constructor
  · intro p h0 hr
    unfold domain.PlatformImpact.calculate_impact_ratio
    rw [if_neg (by omega)]
    exact hr
  · intro a h0 hr
    unfold domain.ImpactAnalysis.calculate_impact_ratio
    rw [if_neg (by omega)]
    exact hr

/-- Witness for C7 at the freshly constructed impacts (both have
`total_lines = 0` and default ratio `0`). -/
theorem claim_C7_witness :
    ((domain.PlatformImpact.new "Android").total_lines = 0 ∧
      (domain.PlatformImpact.new "Android").impact_ratio = 0 ∧
      ((domain.PlatformImpact.new "Android").calculate_impact_ratio).impact_ratio
        = 0) ∧
    ((⟨0, 0, 0, ∅, 0, 0, [], []⟩ : domain.ImpactAnalysis).total_app_lines = 0 ∧
      (⟨0, 0, 0, ∅, 0, 0, [], []⟩ : domain.ImpactAnalysis).impact_ratio = 0 ∧
      ((⟨0, 0, 0, ∅, 0, 0, [], []⟩ :
          domain.ImpactAnalysis).calculate_impact_ratio).impact_ratio = 0) :=
  ⟨⟨rfl, rfl, claim_C7_zero_division_guard.1 _ rfl rfl⟩,
   ⟨rfl, rfl, claim_C7_zero_division_guard.2 _ rfl rfl⟩⟩

/-- C2 counterexample: the claim asserts that `"User"` is detected on the
line `"val x: User"`, but the generated pattern requires an open-paren, dot,
colon, open-angle or whitespace character *after* the name, and at the end
of that line nothing follows the name, so `is_match` is `false` there. -/
theorem claim_C2_counterexample :
    symbolPatternMatches "User" "val x: User" = false := by decide

/-- C2 (amended): the usage pattern for `"User"` requires a word boundary on
both sides of the name and one of open-paren, dot, colon, open-angle or
whitespace after it; it therefore matches in `"User("`, `"User."`,
`"User:"`, `"User<"` and `"val x: User "` (trailing whitespace), but does
NOT match in `"val x: User"` (nothing follows the name at end of line) and
does NOT match the standalone `"User"` inside `"UserRepository"`; on the
unmatched line no usage entry is produced. -/
theorem claim_C2_amended_boundary_matching :
    symbolPatternMatches "User" "User(" = true ∧
    symbolPatternMatches "User" "User." = true ∧
    symbolPatternMatches "User" "User:" = true ∧
    symbolPatternMatches "User" "User<" = true ∧
    symbolPatternMatches "User" "val x: User " = true ∧
    symbolPatternMatches "User" "val x: User" = false ∧
    symbolPatternMatches "User" "UserRepository" = false ∧
    detect_usage_with_patterns "val x: User" "App.kt" ["User"] ["//"] = [] := by
  decide

/-- C4 counterexample: the claim asserts that every match on a line
increments the reference count, so a line containing the symbol twice would
contribute two; but the code only calls `is_match` once per line and symbol,
so the line `"val u = User( User("` (two standalone matches of `"User"`)
contributes exactly one to the reference count. -/
theorem claim_C4_counterexample :
    usageMatchPositions "User" "val u = User( User(" = 2 ∧
    refCountOf
      (detect_usage_with_patterns "val u = User( User(" "App.kt" ["User"] ["//"])
      "User" = 1 := by decide

/-- C4 (amended): for every candidate symbol (candidate list without
duplicates), its reference count after a scan equals the number of
non-comment lines on which its pattern matches — one increment and one
usage record per matching line, regardless of how many times the symbol
occurs on that line; a single line may still contribute to several
different symbols. -/
theorem claim_C4_amended_per_line_counting
    (content file_path : String) (kmp_symbols comment_prefixes : List String)
    (sym : String) (hnd : kmp_symbols.Nodup) (hmem : sym ∈ kmp_symbols) :
    refCountOf
      (detect_usage_with_patterns content file_path kmp_symbols comment_prefixes)
      sym = matchedLineCount content comment_prefixes sym := by
  unfold detect_usage_with_patterns matchedLineCount
  rw [refCountOf_lineFold file_path kmp_symbols comment_prefixes sym hnd hmem]
  have h0 : refCountOf [] sym = 0 := rfl
  rw [h0, List.enum]
  rw [countP_enumFrom
    (fun line => !isCommentLine comment_prefixes line &&
      symbolPatternMatches sym line) (rustLines content) 0]
  rw [List.countP_eq_length_filter]
  omega

/-- Witness for C4 (amended) on a two-symbol scan: `"User"` appears twice on
the first line but counts once, and the second line contributes to `"bar"`
instead. -/
theorem claim_C4_amended_witness :
    ["User", "bar"].Nodup ∧ "User" ∈ ["User", "bar"] ∧
    refCountOf
      (detect_usage_with_patterns "val u = User( User(\nbar()" "App.kt"
        ["User", "bar"] ["//"]) "User"
      = matchedLineCount "val u = User( User(\nbar()" ["//"] "User" :=
  ⟨by decide, by decide,
   claim_C4_amended_per_line_counting _ _ _ _ _ (by decide) (by decide)⟩

/-- C10: every entry of the map returned by `detect_usage_with_patterns`
keeps its bookkeeping in sync: `reference_count` equals the length of
`usage_lines`, the analyzed file's path is a member of `used_in_files`, and
every recorded usage location carries that same file path. -/
theorem claim_C10_usage_entry_sync
    (content file_path : String) (kmp_symbols comment_prefixes : List String)
    (p : String × analyzer.SymbolUsage)
    (hp : p ∈ detect_usage_with_patterns content file_path kmp_symbols
      comment_prefixes) :
    p.2.reference_count = p.2.usage_lines.length ∧
    file_path ∈ p.2.used_in_files ∧
    ∀ loc ∈ p.2.usage_lines, loc.file = file_path := by
  unfold detect_usage_with_patterns at hp
  exact usageEntryOk_lineFold file_path kmp_symbols comment_prefixes
    ((rustLines content).enum) [] (fun q hq => absurd hq (List.not_mem_nil q))
    p hp

/-- Witness for C10 at a concrete one-line scan. -/
theorem claim_C10_witness :
    (("User", (⟨"User", 1, {"App.kt"}, [⟨"App.kt", 1, "val u = User()"⟩]⟩ :
        analyzer.SymbolUsage)) ∈
      detect_usage_with_patterns "val u = User()" "App.kt" ["User"] ["//"]) ∧
    ((("User", (⟨"User", 1, {"App.kt"}, [⟨"App.kt", 1, "val u = User()"⟩]⟩ :
        analyzer.SymbolUsage))).2.reference_count =
      (("User", (⟨"User", 1, {"App.kt"}, [⟨"App.kt", 1, "val u = User()"⟩]⟩ :
        analyzer.SymbolUsage))).2.usage_lines.length ∧
     "App.kt" ∈ (("User", (⟨"User", 1, {"App.kt"},
        [⟨"App.kt", 1, "val u = User()"⟩]⟩ :
        analyzer.SymbolUsage))).2.used_in_files ∧
     ∀ loc ∈ (("User", (⟨"User", 1, {"App.kt"},
        [⟨"App.kt", 1, "val u = User()"⟩]⟩ :
        analyzer.SymbolUsage))).2.usage_lines, loc.file = "App.kt") :=
  ⟨by decide,
   claim_C10_usage_entry_sync "val u = User()" "App.kt" ["User"] ["//"] _
     (by decide)⟩

/-! ### Error-propagation lemmas for the use cases -/

theorem readLineCount_unreadable (fs : String → Option String)
    (platform : domain.Platform) (file : String) (h : fs file = none) :
    readLineCount fs platform file = 0 := by
  simp [readLineCount, read_source_file, h]

theorem sum_readLineCount_filter (fs : String → Option String)
    (platform : domain.Platform) :
    ∀ files : List String,
      ((files.filter (fun p => (fs p).isSome)).map
        (readLineCount fs platform)).sum
        = (files.map (readLineCount fs platform)).sum := by
  intro files
  induction files with
  | nil => rfl
  | cons a rest ih =>
    by_cases ha : (fs a).isSome
    · simp [List.filter_cons, ha, ih]
    · have h0 : readLineCount fs platform a = 0 := by
        apply readLineCount_unreadable
        cases hfa : fs a
        · rfl
        · rw [hfa] at ha; simp at ha
      simp [List.filter_cons, ha, ih, h0]

theorem detectUsageFiles_error (fs : String → Option String)
    (symbols : List domain.Symbol) :
    ∀ (files : List String) (m : List (String × List domain.SymbolUsage)),
      (∃ p ∈ files, fs p = none) →
      ∃ e, detectUsageFiles fs symbols files m = .error e := by
  intro files
  induction files with
  | nil =>
    rintro m ⟨p, hp, _⟩
    exact absurd hp (List.not_mem_nil p)
  | cons q rest ih =>
    rintro m ⟨p, hp, hnone⟩
    cases hfq : fs q with
    | none =>
      exact ⟨q, by simp [detectUsageFiles, read_source_file, hfq]⟩
    | some content =>
      rcases List.mem_cons.mp hp with rfl | hp2
      · rw [hfq] at hnone; cases hnone
      · simp only [detectUsageFiles, read_source_file, hfq]
        exact ih _ ⟨p, hp2, hnone⟩

theorem detectUsagePlatforms_error (fs : String → Option String)
    (symbols : List domain.Symbol) :
    ∀ (pls : List (domain.Platform × List String))
      (m : List (String × List domain.SymbolUsage)),
      (∃ pl ∈ pls, ∃ p ∈ pl.2, fs p = none) →
      ∃ e, detectUsagePlatforms fs symbols pls m = .error e := by
  intro pls
  induction pls with
  | nil =>
    rintro m ⟨pl, hpl, _⟩
    exact absurd hpl (List.not_mem_nil pl)
  | cons pl0 rest ih =>
    rintro m ⟨pl, hpl, p, hp, hnone⟩
    obtain ⟨pf, pfiles⟩ := pl0
    cases hres : detectUsageFiles fs symbols pfiles m with
    | error e =>
      exact ⟨e, by simp [detectUsagePlatforms, hres]⟩
    | ok m2 =>
      rcases List.mem_cons.mp hpl with rfl | hpl2
      · obtain ⟨e, he⟩ := detectUsageFiles_error fs symbols pfiles m ⟨p, hp, hnone⟩
        rw [he] at hres
        cases hres
      · simp only [detectUsagePlatforms, hres]
        exact ih m2 ⟨pl, hpl2, p, hp, hnone⟩

/-- C3 counterexample: the claim asserts that the usage-detection pass skips
an unreadable file and still returns a result for the remaining files; but
`DetectUsageUseCase::execute` propagates the read error with `?`, so one
unreadable file (`"b.kt"`) aborts the whole batch even though `"a.kt"` was
read successfully. -/
theorem claim_C3_counterexample :
    DetectUsageUseCase.execute
      (fun p => if p = "a.kt" then some "val u = User()" else none)
      [(domain.Platform.Android, ["a.kt", "b.kt"])]
      [⟨"User", .Class, "shared", "s.kt", true⟩]
      = .error "b.kt" := by decide

/-- C3 (amended): the line-counting pass of the impact calculation tolerates
per-file read failures — an unreadable file contributes `0` lines and the
per-platform totals equal the sums over the readable files only — but the
usage-detection pass (`DetectUsageUseCase::execute`) is fail-fast: if any
application file of any platform is unreadable, the whole pass returns that
I/O error and produces no partial result. -/
theorem claim_C3_amended_read_error_handling :
    (∀ (fs : String → Option String)
        (app_files : List (domain.Platform × List String))
        (symbols : List domain.Symbol),
      (∃ pl ∈ app_files, ∃ p ∈ pl.2, fs p = none) →
      ∃ e, DetectUsageUseCase.execute fs app_files symbols = .error e) ∧
    (∀ (fs : String → Option String) (platform : domain.Platform)
        (file : String), fs file = none →
      readLineCount fs platform file = 0) ∧
    (∀ (fs : String → Option String) (platform : domain.Platform)
        (files : List String)
        (symbol_usages : List (String × List domain.SymbolUsage))
        (direct_files transitive_files : List String),
      (calculate_platform_impact fs platform files symbol_usages direct_files
          transitive_files).total_lines
        = ((files.filter (fun p => (fs p).isSome)).map
            (readLineCount fs platform)).sum) := by
  refine ⟨?_, ?_, ?_⟩
  · intro fs app_files symbols hex
    exact detectUsagePlatforms_error fs symbols app_files [] hex
  · intro fs platform file h
    exact readLineCount_unreadable fs platform file h
  · intro fs platform files symbol_usages direct_files transitive_files
    rw [sum_readLineCount_filter]
    have : calculate_platform_impact fs platform files symbol_usages
        direct_files transitive_files =
        domain.PlatformImpact.calculate_impact_ratio
          { platform_name := platform.name
            total_files := files.length
            total_lines := (files.map (readLineCount fs platform)).sum
            affected_files := (direct_files.filter
              (fun f => decide (f ∈ files))).toFinset
            affected_lines :=
              ((direct_files.filter (fun f => decide (f ∈ files))).toFinset).sum
                (readLineCount fs platform) +
              ((transitive_files.filter
                (fun f => decide (f ∈ files))).toFinset).sum
                (readLineCount fs platform)
            impact_ratio := 0
            top_symbols := calculate_top_symbols symbol_usages files } := rfl
    rw [this, platformImpact_calcRatio_total]

/-- Witness for C3 (amended): one unreadable file among two aborts usage
detection, an unreadable file counts zero lines, and the platform total
equals the readable-files sum. -/
theorem claim_C3_amended_witness :
    (∃ pl ∈ [(domain.Platform.Android, ["a.kt", "b.kt"])], ∃ p ∈ pl.2,
      (fun q => if q = "a.kt" then some "val u = User()" else none) p = none) ∧
    (∃ e, DetectUsageUseCase.execute
      (fun q => if q = "a.kt" then some "val u = User()" else none)
      [(domain.Platform.Android, ["a.kt", "b.kt"])] [] = .error e) ∧
    (fun (_ : String) => (none : Option String)) "c.kt" = none ∧
    readLineCount (fun _ => none) domain.Platform.Android "c.kt" = 0 ∧
    (calculate_platform_impact
        (fun q => if q = "a.kt" then some "val u = User()" else none)
        domain.Platform.Android ["a.kt", "b.kt"] [] [] []).total_lines
      = ((["a.kt", "b.kt"].filter
          (fun p => ((fun q => if q = "a.kt" then some "val u = User()"
            else none) p).isSome)).map
          (readLineCount
            (fun q => if q = "a.kt" then some "val u = User()" else none)
            domain.Platform.Android)).sum :=
  ⟨⟨(domain.Platform.Android, ["a.kt", "b.kt"]), by decide, "b.kt",
      by decide, by decide⟩,
   claim_C3_amended_read_error_handling.1 _ _ []
     ⟨(domain.Platform.Android, ["a.kt", "b.kt"]), by decide, "b.kt",
       by decide, by decide⟩,
   rfl,
   claim_C3_amended_read_error_handling.2.1 _ _ _ rfl,
   claim_C3_amended_read_error_handling.2.2 _ _ _ _ _ _⟩

/-- C9: symbol extraction is fail-fast — if any shared-module file path in
the list is unreadable, `extract_kmp_symbols` returns an I/O error for a
file path and yields no partial symbol list for the files already
processed. -/
theorem claim_C9_extract_fail_fast (fs : String → Option String) :
    ∀ (paths : List String), (∃ p ∈ paths, fs p = none) →
      ∃ e, extract_kmp_symbols fs paths = .error e := by
  intro paths
  induction paths with
  | nil =>
    rintro ⟨p, hp, _⟩
    exact absurd hp (List.not_mem_nil p)
  | cons q rest ih =>
    rintro ⟨p, hp, hnone⟩
    cases hfq : fs q with
    | none =>
      refine ⟨q, ?_⟩
      simp [extract_kmp_symbols, SymbolExtractor.extract_symbols, hfq]
    | some content =>
      rcases List.mem_cons.mp hp with rfl | hp2
      · rw [hfq] at hnone; cases hnone
      · obtain ⟨e, he⟩ := ih ⟨p, hp2, hnone⟩
        refine ⟨e, ?_⟩
        simp only [extract_kmp_symbols, SymbolExtractor.extract_symbols, hfq]
        by_cases hpriv : is_private_file content
        · simp [hpriv, he]
        · simp [hpriv, he]

/-- Witness for C9: the second of two shared files is unreadable and the
whole extraction errors out. -/
theorem claim_C9_witness :
    (∃ p ∈ ["a.kt", "b.kt"],
      (fun q => if q = "a.kt" then some "class A" else none) p = none) ∧
    ∃ e, extract_kmp_symbols
      (fun q => if q = "a.kt" then some "class A" else none)
      ["a.kt", "b.kt"] = .error e :=
  ⟨⟨"b.kt", by decide, by decide⟩,
   claim_C9_extract_fail_fast _ _ ⟨"b.kt", by decide, by decide⟩⟩

/-- C5: for every platform impact produced by the impact calculation and for
the aggregate result, `affected_lines ≤ total_lines` and
`0 ≤ impact_ratio ≤ 1` (in particular whenever `total_lines > 0`).  File
contents are read through a fixed `fs` function, so each file counts the
same in every read, and the affected sets are filtered against the
platform's file list; the direct and transitive sets are disjoint, as
`compute_transitive_impact` guarantees (claim C1). -/
theorem claim_C5_ratio_bounds :
    (∀ (fs : String → Option String) (platform : domain.Platform)
        (files : List String)
        (symbol_usages : List (String × List domain.SymbolUsage))
        (direct_files transitive_files : List String),
      (∀ f ∈ transitive_files, f ∉ direct_files) →
      (calculate_platform_impact fs platform files symbol_usages direct_files
          transitive_files).affected_lines ≤
        (calculate_platform_impact fs platform files symbol_usages direct_files
          transitive_files).total_lines ∧
      0 ≤ (calculate_platform_impact fs platform files symbol_usages
          direct_files transitive_files).impact_ratio ∧
      (calculate_platform_impact fs platform files symbol_usages direct_files
          transitive_files).impact_ratio ≤ 1) ∧
    (∀ (total_symbols : Nat) (app_files : List (domain.Platform × List String))
        (direct_affected_files : List String)
        (platform_impacts : List (domain.Platform × domain.PlatformImpact))
        (symbol_usages : List (String × List domain.SymbolUsage)),
      (∀ q ∈ platform_impacts, q.2.affected_lines ≤ q.2.total_lines) →
      (aggregateImpactAnalysis total_symbols app_files direct_affected_files
          platform_impacts symbol_usages).affected_lines ≤
        (aggregateImpactAnalysis total_symbols app_files direct_affected_files
          platform_impacts symbol_usages).total_app_lines ∧
      0 ≤ (aggregateImpactAnalysis total_symbols app_files
          direct_affected_files platform_impacts symbol_usages).impact_ratio ∧
      (aggregateImpactAnalysis total_symbols app_files direct_affected_files
          platform_impacts symbol_usages).impact_ratio ≤ 1) := by
  constructor
  · intro fs platform files symbol_usages direct_files transitive_files hdisj
    set c := readLineCount fs platform with hc
    set pd := (direct_files.filter (fun f => decide (f ∈ files))).toFinset
      with hpd
    set pt := (transitive_files.filter (fun f => decide (f ∈ files))).toFinset
      with hpt
    have hI : calculate_platform_impact fs platform files symbol_usages
        direct_files transitive_files =
        domain.PlatformImpact.calculate_impact_ratio
          { platform_name := platform.name
            total_files := files.length
            total_lines := (files.map c).sum
            affected_files := pd
            affected_lines := pd.sum c + pt.sum c
            impact_ratio := 0
            top_symbols := calculate_top_symbols symbol_usages files } := rfl
    have hdisjs : Disjoint pd pt := by
      rw [Finset.disjoint_left]
      intro a ha hb
      rw [hpd, List.mem_toFinset, List.mem_filter] at ha
      rw [hpt, List.mem_toFinset, List.mem_filter] at hb
      exact (hdisj a hb.1) ha.1
    have hsub : pd ∪ pt ⊆ files.toFinset := by
      intro a ha
      rcases Finset.mem_union.mp ha with ha | ha
      · rw [hpd, List.mem_toFinset, List.mem_filter] at ha
        exact List.mem_toFinset.mpr (of_decide_eq_true ha.2)
      · rw [hpt, List.mem_toFinset, List.mem_filter] at ha
        exact List.mem_toFinset.mpr (of_decide_eq_true ha.2)
    have key : pd.sum c + pt.sum c ≤ (files.map c).sum := by
      rw [← Finset.sum_union hdisjs]
      exact le_trans (Finset.sum_le_sum_of_subset hsub)
        (toFinset_sum_le_list_sum files c)
    rw [hI, platformImpact_calcRatio_affected, platformImpact_calcRatio_total]
    exact ⟨key, platformImpact_calcRatio_bounds _ key rfl⟩
  · intro total_symbols app_files direct_affected_files platform_impacts
      symbol_usages hle
    have key : ((platform_impacts.map (fun p => p.2.affected_lines)).sum : Nat)
        ≤ (platform_impacts.map (fun p => p.2.total_lines)).sum := by
      induction platform_impacts with
      | nil => simp
      | cons q rest ih =>
        simp only [List.map_cons, List.sum_cons]
        have h1 := hle q (List.mem_cons_self _ _)
        have h2 := ih (fun r hr => hle r (List.mem_cons_of_mem _ hr))
        omega
    have hA : aggregateImpactAnalysis total_symbols app_files
        direct_affected_files platform_impacts symbol_usages =
        domain.ImpactAnalysis.calculate_impact_ratio
          { total_symbols := total_symbols
            total_app_files := (app_files.map (fun p => p.2.length)).sum
            total_app_lines :=
              (platform_impacts.map (fun p => p.2.total_lines)).sum
            affected_files := direct_affected_files.toFinset
            affected_lines :=
              (platform_impacts.map (fun p => p.2.affected_lines)).sum
            impact_ratio := 0
            platform_impacts := platform_impacts.map (fun p => (p.1.name, p.2))
            symbol_usages := symbol_usages } := rfl
    rw [hA, impactAnalysis_calcRatio_affected, impactAnalysis_calcRatio_total]
    exact ⟨key, impactAnalysis_calcRatio_bounds _ key rfl⟩

/-- Witness for C5: a platform with one readable file that is directly
affected, and an aggregate over that single platform impact. -/
theorem claim_C5_witness :
    (∀ f ∈ ([] : List String), f ∉ ["a.kt"]) ∧
    ((calculate_platform_impact (fun _ => some "val a = 1")
        domain.Platform.Android ["a.kt"] [] ["a.kt"] []).affected_lines ≤
      (calculate_platform_impact (fun _ => some "val a = 1")
        domain.Platform.Android ["a.kt"] [] ["a.kt"] []).total_lines ∧
      0 ≤ (calculate_platform_impact (fun _ => some "val a = 1")
        domain.Platform.Android ["a.kt"] [] ["a.kt"] []).impact_ratio ∧
      (calculate_platform_impact (fun _ => some "val a = 1")
        domain.Platform.Android ["a.kt"] [] ["a.kt"] []).impact_ratio ≤ 1) ∧
    (∀ q ∈ [(domain.Platform.Android, domain.PlatformImpact.new "Android")],
      q.2.affected_lines ≤ q.2.total_lines) ∧
    ((aggregateImpactAnalysis 0 [] []
        [(domain.Platform.Android, domain.PlatformImpact.new "Android")]
        []).affected_lines ≤
      (aggregateImpactAnalysis 0 [] []
        [(domain.Platform.Android, domain.PlatformImpact.new "Android")]
        []).total_app_lines ∧
      0 ≤ (aggregateImpactAnalysis 0 [] []
        [(domain.Platform.Android, domain.PlatformImpact.new "Android")]
        []).impact_ratio ∧
      (aggregateImpactAnalysis 0 [] []
        [(domain.Platform.Android, domain.PlatformImpact.new "Android")]
        []).impact_ratio ≤ 1) :=
  ⟨by decide,
   claim_C5_ratio_bounds.1 _ _ _ _ _ _ (by decide),
   by decide,
   claim_C5_ratio_bounds.2 0 [] [] _ [] (by decide)⟩

/-- C8: after `DependencyGraph::build` completes successfully on a freshly
constructed graph (the maps are rebuilt from scratch each run, not updated
incrementally), the forward/reverse mirror invariant holds: for every file
`f` and every `d` in `forward[f]`, `f` is a member of `reverse[d]`. -/
theorem claim_C8_build_mirror_invariant (fs : String → Option String)
    (files : List String) (g : DependencyGraph)
    (hok : DependencyGraph.build fs DependencyGraph.new files = .ok g) :
    mirrorInvariant g := by
  unfold DependencyGraph.build at hok
  apply buildPass2_mirror fs files _ g _ hok
  intro f d hd
  simp [DependencyGraph.new, lookupFinset] at hd

/-- Witness for C8 on a concrete two-file project (`X.kt` imports the class
defined in `Y.kt`). -/
theorem claim_C8_witness :
    (DependencyGraph.build
        (fun p =>
          if p = "Y.kt" then some "package com.example\nclass Foo"
          else if p = "X.kt" then some "import com.example.Foo\nclass Bar"
          else none)
        DependencyGraph.new ["Y.kt", "X.kt"]
      = .ok ⟨[("Y.kt", ∅), ("X.kt", {"Y.kt"})], [("Y.kt", {"X.kt"})],
          [("com.example.Foo", "Y.kt"), (".Bar", "X.kt")]⟩) ∧
    mirrorInvariant ⟨[("Y.kt", ∅), ("X.kt", {"Y.kt"})], [("Y.kt", {"X.kt"})],
      [("com.example.Foo", "Y.kt"), (".Bar", "X.kt")]⟩ :=
  ⟨by decide,
   claim_C8_build_mirror_invariant
     (fun p =>
       if p = "Y.kt" then some "package com.example\nclass Foo"
       else if p = "X.kt" then some "import com.example.Foo\nclass Bar"
       else none)
     ["Y.kt", "X.kt"]
     ⟨[("Y.kt", ∅), ("X.kt", {"Y.kt"})], [("Y.kt", {"X.kt"})],
       [("com.example.Foo", "Y.kt"), (".Bar", "X.kt")]⟩
     (by decide)⟩
